import Mathlib

set_option maxRecDepth 8192
set_option maxHeartbeats 1000000

namespace FontsPlugin

/-!
Shallow embedding of the core of koishi-plugin-fonts:
`src/utils.ts` (mergeFonts, isUrl, ReadWriteLock) and `src/font.ts`
(Fonts.get, Fonts.clear, Fonts.googleFontsParser, Fonts.manifestParser path
resolution, Fonts.download, Fonts.downloadOne rename retry and cleanup).
JS platform primitives used by the code (URL / URLSearchParams parsing,
decodeURIComponent, path.resolve, path.dirname, url.pathToFileURL) are
modelled explicitly below, restricted to the behaviour the plugin relies on.
-/

/-- Font formats, from the `Fonts.FontFormats` constant object in font.ts. -/
inductive FontFormat where
  | woff
  | woff2
  | ttf
  | otf
  | sfnt
  | ttc
  | google
  | manifest
deriving DecidableEq, Repr

/-- A font asset, from the `Fonts.Font` interface in font.ts.  Descriptors are
a key/value map whose values may be null in database rows, modelled as an
association list of optional values.  The hidden `Symbol.for('source')` tag on
in-memory fonts is modelled as an explicit optional field (database rows carry
none). -/
structure Font where
  id : String
  family : String
  format : FontFormat
  fileName : String
  size : Nat
  path : String
  descriptors : List (String × Option String)
  sourceTag : Option String
deriving DecidableEq, Repr

/-- mergeFonts from src/utils.ts: keep every existing font, replacing it by the
first new font with the same id when one exists, then append the new fonts
whose id does not occur among the existing ones. -/
def mergeFonts (existingFonts newFonts : List Font) : List Font :=
  let unique := newFonts.filter (fun font => !(existingFonts.any (fun f => f.id == font.id)))
  let update := existingFonts.map (fun exist =>
    (newFonts.find? (fun font => font.id == exist.id)).getD exist)
  update ++ unique

/-- Helper for isUrl: after the leading letter, the regex
`^[a-zA-Z][a-zA-Z0-9+.-]*://` accepts scheme characters until the literal
"://". -/
def schemeTailCheck : List Char → Bool
  | ':' :: '/' :: '/' :: _ => true
  | c :: rest => (c.isAlphanum || c == '+' || c == '.' || c == '-') && schemeTailCheck rest
  | [] => false

/-- isUrl from src/utils.ts: the string starts with a letter, then letters,
digits, plus, period or hyphen, then "://". -/
def isUrl (s : String) : Bool :=
  match s.data with
  | [] => false
  | c :: rest => c.isAlpha && schemeTailCheck rest

/-- JS String.prototype.startsWith, over the character list. -/
def strStartsWith (s pat : String) : Bool :=
  pat.data.isPrefixOf s.data

/-- JS String.prototype.endsWith, over the character list. -/
def strEndsWith (s pat : String) : Bool :=
  pat.data.reverse.isPrefixOf s.data.reverse

/-- JS String.prototype.trim (whitespace at both ends removed). -/
def trimStr (s : String) : String :=
  String.mk (((s.data.dropWhile Char.isWhitespace).reverse.dropWhile Char.isWhitespace).reverse)

/-- Split a character list on a separator character; mirrors JS
String.prototype.split with a single-character separator. -/
def splitOnChar (sep : Char) : List Char → List (List Char)
  | [] => [[]]
  | c :: rest =>
    if c == sep then
      [] :: splitOnChar sep rest
    else
      match splitOnChar sep rest with
      | [] => [[c]]
      | g :: gs => (c :: g) :: gs

/-- Value of a hexadecimal digit character. -/
def hexDigitVal (c : Char) : Option Nat :=
  if '0' ≤ c ∧ c ≤ '9' then some (c.toNat - '0'.toNat)
  else if 'a' ≤ c ∧ c ≤ 'f' then some (c.toNat - 'a'.toNat + 10)
  else if 'A' ≤ c ∧ c ≤ 'F' then some (c.toNat - 'A'.toNat + 10)
  else none

/-- UTF-8 encoding of a single character, as byte values. -/
def charUtf8Bytes (c : Char) : List Nat :=
  let n := c.toNat
  if n < 0x80 then [n]
  else if n < 0x800 then [0xC0 + n / 64, 0x80 + n % 64]
  else if n < 0x10000 then [0xE0 + n / 4096, 0x80 + (n / 64) % 64, 0x80 + n % 64]
  else [0xF0 + n / 262144, 0x80 + (n / 4096) % 64, 0x80 + (n / 64) % 64, 0x80 + n % 64]

/-- UTF-8 decoding of a byte-value list; none on malformed input. -/
def utf8Decode : List Nat → Option (List Char)
  | [] => some []
  | b :: rest =>
    if b < 0x80 then
      match utf8Decode rest with
      | some cs => some (Char.ofNat b :: cs)
      | none => none
    else if b < 0xC2 then none
    else if b < 0xE0 then
      match rest with
      | b1 :: rest1 =>
        if 0x80 ≤ b1 ∧ b1 < 0xC0 then
          match utf8Decode rest1 with
          | some cs => some (Char.ofNat ((b - 0xC0) * 64 + (b1 - 0x80)) :: cs)
          | none => none
        else none
      | [] => none
    else if b < 0xF0 then
      match rest with
      | b1 :: b2 :: rest2 =>
        if (0x80 ≤ b1 ∧ b1 < 0xC0) ∧ (0x80 ≤ b2 ∧ b2 < 0xC0) then
          let n := (b - 0xE0) * 4096 + (b1 - 0x80) * 64 + (b2 - 0x80)
          if n < 0x800 ∨ (0xD800 ≤ n ∧ n < 0xE000) then none
          else
            match utf8Decode rest2 with
            | some cs => some (Char.ofNat n :: cs)
            | none => none
        else none
      | _ => none
    else if b < 0xF5 then
      match rest with
      | b1 :: b2 :: b3 :: rest3 =>
        if (0x80 ≤ b1 ∧ b1 < 0xC0) ∧ ((0x80 ≤ b2 ∧ b2 < 0xC0) ∧ (0x80 ≤ b3 ∧ b3 < 0xC0)) then
          let n := (b - 0xF0) * 262144 + (b1 - 0x80) * 4096 + (b2 - 0x80) * 64 + (b3 - 0x80)
          if n < 0x10000 ∨ 0x110000 ≤ n then none
          else
            match utf8Decode rest3 with
            | some cs => some (Char.ofNat n :: cs)
            | none => none
        else none
      | _ => none
    else none

/-- Percent-decoding of a character list into byte values: each valid %XY
escape yields one byte, every other character contributes its UTF-8 bytes. -/
def percentDecodeBytes : List Char → List Nat
  | [] => []
  | '%' :: a :: b :: rest =>
    match hexDigitVal a, hexDigitVal b with
    | some x, some y => (16 * x + y) :: percentDecodeBytes rest
    | _, _ => charUtf8Bytes '%' ++ percentDecodeBytes (a :: b :: rest)
  | c :: rest => charUtf8Bytes c ++ percentDecodeBytes rest

/-- Percent-decoding of a character list; if the decoded bytes are not valid
UTF-8 the input is returned unchanged (the JS exception path is out of
scope for the modelled inputs). -/
def percentDecodeChars (cs : List Char) : List Char :=
  match utf8Decode (percentDecodeBytes cs) with
  | some out => out
  | none => cs

/-- JS decodeURIComponent (restricted to well-formed input). -/
def percentDecode (s : String) : String :=
  String.mk (percentDecodeChars s.data)

/-- application/x-www-form-urlencoded decoding as done by URLSearchParams:
plus signs become spaces, then percent-decoding. -/
def formUrlDecode (s : String) : String :=
  String.mk (percentDecodeChars (s.data.map (fun c => if c == '+' then ' ' else c)))

/-- Parse a query string (without the leading question mark) the way
URLSearchParams does: split on ampersands, drop empty segments, split each
segment at its first equals sign, form-url-decode names and values. -/
def parseQuery (q : String) : List (String × String) :=
  (splitOnChar '&' q.data).filterMap (fun seg =>
    if seg.isEmpty then none
    else
      let key := seg.takeWhile (fun c => c != '=')
      let value := seg.drop (key.length + 1)
      some (formUrlDecode (String.mk key), formUrlDecode (String.mk value)))

/-- The parts of a parsed absolute URL that font.ts reads: scheme, host,
pathname and query (origin is scheme://host). Models `new URL(u)` for
well-formed http(s) URLs without userinfo. -/
structure SimpleURL where
  scheme : String
  host : String
  pathname : String
  query : String
deriving DecidableEq, Repr

/-- Parse an absolute URL string into its parts (fragment discarded). -/
def parseURL (u : String) : SimpleURL :=
  let cs := u.data.takeWhile (fun c => c != '#')
  let scheme := cs.takeWhile (fun c => c != ':')
  let rest := cs.drop (scheme.length + 3)
  let host := rest.takeWhile (fun c => c != '/' && c != '?')
  let afterHost := rest.drop host.length
  let pathname := afterHost.takeWhile (fun c => c != '?')
  let query := afterHost.drop (pathname.length + 1)
  { scheme := String.mk (scheme.map Char.toLower)
    host := String.mk (host.map Char.toLower)
    pathname := if pathname.isEmpty then "/" else String.mk pathname
    query := String.mk query }

/-- The origin of a parsed URL, as JS url.origin for http(s) URLs. -/
def SimpleURL.origin (u : SimpleURL) : String :=
  u.scheme ++ "://" ++ u.host

/-- URLSearchParams.getAll: all values bound to a name, in order. -/
def getAllParams (ps : List (String × String)) (name : String) : List String :=
  (ps.filter (fun kv => kv.1 == name)).map (fun kv => kv.2)

/-- URLSearchParams.get: the first value bound to a name, if any. -/
def getParam (ps : List (String × String)) (name : String) : Option String :=
  (ps.find? (fun kv => kv.1 == name)).map (fun kv => kv.2)

/-- The query parameters of a URL string. -/
def queryParamsOf (u : String) : List (String × String) :=
  parseQuery (parseURL u).query

/-- JS String.prototype.replace with a single-character string pattern:
replace the first occurrence only. -/
def replaceFirstChar (target repl : Char) : List Char → List Char
  | [] => []
  | c :: rest =>
    if c == target then repl :: rest
    else c :: replaceFirstChar target repl rest

/-- Fonts.googleFontsParser from font.ts: one asset per `family` query
parameter; id and fileName are the (decoded) parameter value including any
variant suffix, the display name is the part before the colon (run through
decodeURIComponent), size is 0, and the path is rebuilt from origin, pathname,
the family and the `display` parameter when present, with the first space
replaced by a plus. -/
def googleFontsParser (u : String) (source : String) : List Font :=
  let url := parseURL u
  let ps := parseQuery url.query
  let families := getAllParams ps "family"
  let display := getParam ps "display"
  families.map (fun family =>
    let name := String.mk (family.data.takeWhile (fun c => c != ':'))
    { id := family
      family := percentDecode name
      format := FontFormat.google
      fileName := family
      size := 0
      path := String.mk (replaceFirstChar ' ' '+'
        (url.origin ++ url.pathname ++ "?family=" ++ family ++
          (match display with
           | some d => if d == "" then "" else "&display=" ++ d
           | none => "")).data)
      descriptors := []
      sourceTag := some source })

/-- The example Google Fonts URL used by the spec. -/
def gfontsUrl : String :=
  "https://fonts.googleapis.com/css2?family=Roboto:wght@400&family=Open+Sans&display=swap"

/-!
ReadWriteLock from src/utils.ts, as a small-step relation over task
interleavings.  Suspension points are the `await new Promise` in the two
acquire methods: a suspended task first sits in a waiting queue and, after
`wakeUpWaiters` resolves its promise, becomes a woken task whose continuation
(the `activeReaders++` respectively `this.activeWriter = true` line) runs as a
separate later step.  `waitingReaders`/`wokenReaders` and
`waitingWriters`/`wokenWriters` count tasks in those two stages.
`activeReaders` is the counter field of the class (which equals the number of
read-lock holders); `activeWriter` is the boolean field of the class, and
`writeHolders` is a ghost counter of tasks that have completed
`acquireWriteLock` and not yet released. -/
structure LockState where
  waitingReaders : Nat
  wokenReaders : Nat
  waitingWriters : Nat
  wokenWriters : Nat
  activeReaders : Nat
  activeWriter : Bool
  writeHolders : Nat
deriving DecidableEq, Repr

/-- wakeUpWaiters from src/utils.ts: do nothing while the lock is held;
otherwise with writer preference wake one waiting writer first, else wake all
waiting readers together, else wake one waiting writer. -/
def wakeUpWaiters (pref : Bool) (s : LockState) : LockState :=
  if s.activeWriter = true ∨ 0 < s.activeReaders then s
  else if pref = true ∧ 0 < s.waitingWriters then
    { s with waitingWriters := s.waitingWriters - 1, wokenWriters := s.wokenWriters + 1 }
  else if 0 < s.waitingReaders then
    { s with waitingReaders := 0, wokenReaders := s.wokenReaders + s.waitingReaders }
  else if 0 < s.waitingWriters then
    { s with waitingWriters := s.waitingWriters - 1, wokenWriters := s.wokenWriters + 1 }
  else s

/-- One scheduler step of the lock: a task runs one synchronous block of
acquireReadLock / acquireWriteLock / releaseReadLock / releaseWriteLock.
The fast paths run check and counter update in one block (no await between
them); a woken task's continuation updates the counters unconditionally, as in
the code after `await new Promise`. -/
inductive LockStep (pref : Bool) : LockState → LockState → Prop
  | readFast (s : LockState)
      (h : ¬(s.activeWriter = true ∨ (pref = true ∧ 0 < s.waitingWriters))) :
      LockStep pref s { s with activeReaders := s.activeReaders + 1 }
  | readWait (s : LockState)
      (h : s.activeWriter = true ∨ (pref = true ∧ 0 < s.waitingWriters)) :
      LockStep pref s { s with waitingReaders := s.waitingReaders + 1 }
  | readResume (s : LockState) (h : 0 < s.wokenReaders) :
      LockStep pref s
        { s with wokenReaders := s.wokenReaders - 1, activeReaders := s.activeReaders + 1 }
  | writeFast (s : LockState) (h : s.activeReaders = 0 ∧ s.activeWriter = false) :
      LockStep pref s { s with activeWriter := true, writeHolders := s.writeHolders + 1 }
  | writeWait (s : LockState) (h : 0 < s.activeReaders ∨ s.activeWriter = true) :
      LockStep pref s { s with waitingWriters := s.waitingWriters + 1 }
  | writeResume (s : LockState) (h : 0 < s.wokenWriters) :
      LockStep pref s
        { s with wokenWriters := s.wokenWriters - 1, activeWriter := true,
                 writeHolders := s.writeHolders + 1 }
  | releaseRead (s : LockState) (h : 0 < s.activeReaders) :
      LockStep pref s (wakeUpWaiters pref { s with activeReaders := s.activeReaders - 1 })
  | releaseWrite (s : LockState) (h : 0 < s.writeHolders) :
      LockStep pref s
        (wakeUpWaiters pref { s with activeWriter := false, writeHolders := s.writeHolders - 1 })

/-- The initial lock state: no waiters, no holders. -/
def initLock : LockState :=
  { waitingReaders := 0, wokenReaders := 0, waitingWriters := 0, wokenWriters := 0,
    activeReaders := 0, activeWriter := false, writeHolders := 0 }

/-- Lock states reachable from the initial state by interleaved steps. -/
def LockReachable (pref : Bool) (s : LockState) : Prop :=
  Relation.ReflTransGen (LockStep pref) initLock s

/-!
Reading the registry: Fonts.get from font.ts, over an explicit state
(in-memory list plus backing-store rows).
-/

/-- Node url.pathToFileURL followed by href serialization, modelled as
"file://" plus the path with characters outside the URL path-safe set
percent-encoded (UTF-8, uppercase hex). -/
def toHexChar (n : Nat) : Char :=
  if n < 10 then Char.ofNat (48 + n) else Char.ofNat (55 + n)

/-- Percent-encode one byte value. -/
def encodeByte (b : Nat) : List Char :=
  ['%', toHexChar (b / 16), toHexChar (b % 16)]

/-- Characters percent-encoded in a file URL path. -/
def needsPathEncode (c : Char) : Bool :=
  decide (c.toNat < 0x20) || c == ' ' || c == '"' || c == '#' || c == '%' || c == '?' ||
  c == '<' || c == '>' || decide (c.toNat = 0x60) || decide (c.toNat = 0x7b) ||
  decide (c.toNat = 0x7d) || decide (0x7f ≤ c.toNat)

/-- Encode one character of a file URL path. -/
def encodePathChar (c : Char) : List Char :=
  if needsPathEncode c then (charUtf8Bytes c).flatMap encodeByte else [c]

/-- The file URI of a local path, as `${pathToFileURL(path)}` in font.ts. -/
def pathToFileURLString (p : String) : String :=
  "file://" ++ String.mk (p.data.flatMap encodePathChar)

/-- The per-font mapping inside Fonts.get: local paths become file URIs
(google and URL-shaped paths pass through) and descriptor entries with null
values are dropped. -/
def transformFont (f : Font) : Font :=
  { f with
    path := if f.format == FontFormat.google || isUrl f.path then f.path
            else pathToFileURLString f.path
    descriptors := f.descriptors.filter (fun kv => kv.2.isSome) }

/-- Fonts.get from font.ts over explicit state: the backing store is queried
for rows whose family is in the requested list, the in-memory list is filtered
the same way, both are merged (in-memory as the existing side, rows as the new
side) and each result is mapped through transformFont. -/
def getFonts (mem db : List Font) (families : List String) : List Font :=
  let dbRows := db.filter (fun row => families.contains row.family)
  let fonts := mem.filter (fun font => families.contains font.family)
  (mergeFonts fonts dbRows).map transformFont

/-!
Fonts.clear from font.ts, over an explicit registry state.
-/

/-- Registry state: the in-memory font list owned by the Fonts service and the
rows of the backing store. -/
structure RegistryState where
  fonts : List Font
  db : List Font
deriving DecidableEq, Repr

/-- Modelled from the spec: `isNonEmptyString` is imported by font.ts from
./utils but its definition is not among the sources; the spec says invalid
(empty or blank) source identifiers are rejected, so it holds exactly when the
trimmed string is nonempty. -/
def isNonEmptyString (s : String) : Bool :=
  trimStr s ≠ ""

/-- Fonts.clear from font.ts: a blank source name is rejected (no-op);
otherwise, under the write lock, every in-memory font whose source tag equals
the trimmed name is removed (with an early no-op return when none match).
The backing store is never touched. -/
def clearFonts (st : RegistryState) (sourceName : String) : RegistryState :=
  if !(isNonEmptyString sourceName) then st
  else
    let source := trimStr sourceName
    let remove := st.fonts.filter (fun font => font.sourceTag == some source)
    if remove.isEmpty then st
    else { st with fonts := st.fonts.filter (fun font => !(font.sourceTag == some source)) }

/-!
Manifest path resolution, from Fonts.manifestParser in font.ts.
-/

/-- Node path.posix.isAbsolute. -/
def isAbsolutePath (p : String) : Bool :=
  strStartsWith p "/"

/-- Node path.posix.dirname. -/
def dirnamePosix (p : String) : String :=
  if p.isEmpty then "."
  else
    let cs := p.data
    let hasRoot := cs.head? = some '/'
    let rcs := (cs.drop 1).reverse
    let r2 := (rcs.dropWhile (fun c => c == '/')).dropWhile (fun c => c != '/')
    let e := r2.length
    if e = 0 then (if hasRoot then "/" else ".")
    else if hasRoot ∧ e = 1 then "//"
    else String.mk (cs.take e)

/-- Normalization of an absolute posix path, as in Node path.resolve: empty
and dot segments are dropped, dot-dot pops the previous segment (or is dropped
at the root). -/
def normalizeAbs (s : String) : String :=
  let parts := splitOnChar '/' s.data
  let stack := parts.foldl (fun acc part =>
    if part.isEmpty ∨ part = ['.'] then acc
    else if part = ['.', '.'] then acc.drop 1
    else part :: acc) ([] : List (List Char))
  "/" ++ String.intercalate "/" (stack.reverse.map String.mk)

/-- Node path.resolve(base, p) with an explicit current working directory for
the case where neither argument is absolute: the rightmost absolute starting
point wins, then the joined path is normalized. -/
def pathResolve (cwd base p : String) : String :=
  if isAbsolutePath p then normalizeAbs p
  else if isAbsolutePath base then normalizeAbs (base ++ "/" ++ p)
  else normalizeAbs (cwd ++ "/" ++ base ++ "/" ++ p)

/-- Everything up to and including the last slash of a string (empty when
there is no slash), as `href.substring(0, href.lastIndexOf('/') + 1)` in
manifestParser. -/
def lastSlashPrefix (s : String) : String :=
  let cs := s.data
  let afterLast := cs.reverse.takeWhile (fun c => c != '/')
  String.mk (cs.take (cs.length - afterLast.length))

/-- Dot-segment removal for URL paths (RFC 3986 style, restricted to paths
that begin at the root). -/
def removeDotSegments (s : String) : String :=
  let parts :=
    match splitOnChar '/' s.data with
    | [] :: rest => rest
    | other => other
  let stack := parts.foldl (fun acc part =>
    if part = ['.'] then acc
    else if part = ['.', '.'] then acc.drop 1
    else part :: acc) ([] : List (List Char))
  "/" ++ String.intercalate "/" (stack.reverse.map String.mk)

/-- `new URL(rel, base).href` for a relative reference rel (no scheme, not
starting with a slash) against an absolute base: base's scheme and host are
kept, rel is appended to base's path directory and dot segments are removed. -/
def urlResolve (rel base : String) : String :=
  let u := parseURL base
  let dir := lastSlashPrefix u.pathname
  u.scheme ++ "://" ++ u.host ++ removeDotSegments (dir ++ rel)

/-- The manifest base in manifestParser: for a remote manifest the href prefix
up to the last slash, for a local manifest the dirname of the manifest path;
the boolean is the isRemote flag. -/
def manifestBase (path : String) : Bool × String :=
  if isUrl path then (true, lastSlashPrefix path)
  else (false, dirnamePosix path)

/-- The per-slice-entry path rewriting in manifestParser: a path that is
neither absolute nor URL-shaped is resolved against the manifest base (URL
resolution for remote manifests, path.resolve for local ones); any other path
is kept unchanged. -/
def resolveSliceEntryPath (cwd : String) (isRemote : Bool) (base : String) (p : String) : String :=
  if !(isAbsolutePath p) && !(isUrl p) then
    if isRemote then urlResolve p base else pathResolve cwd base p
  else p

/-!
Fonts.download from font.ts: the batch runs all files through
Promise.allSettled, special-casing Google-CSS URLs (parsed inline) and
manifest URLs (processed out of band, contributing null), and upserts the
collected results.
-/

/-- The settled outcome of downloadOne for one file: a produced font asset, or
a rejected promise. -/
inductive SettledFile where
  | ok (font : Font)
  | failed
deriving DecidableEq, Repr

/-- One element of the `fonts` array collected by Fonts.download: the
fulfilled value of a batch entry.  The `.filter(Boolean)` in the code runs on
the settled-result objects (always truthy) before `.map(result =>
result.value)`, so the null fulfilled for a manifest URL survives into the
array. -/
inductive DownloadResult where
  | font (f : Font)
  | fonts (fs : List Font)
  | nullValue
deriving DecidableEq, Repr

/-- The contribution of one file of the batch to the collected results, as in
the Promise.allSettled callback of Fonts.download: a Google-CSS URL fulfills
with the inline-parsed asset array (source 'fonts'; its downloadOne outcome is
never consulted), a manifest URL fulfills with null (its processing runs out
of band), any other URL fulfills with its downloadOne asset or is rejected and
dropped by the status filter. -/
def downloadContribution (file : String × SettledFile) : Option DownloadResult :=
  if strStartsWith file.1 "https://fonts.googleapis.com/css" then
    some (DownloadResult.fonts (googleFontsParser file.1 "fonts"))
  else if strEndsWith file.1 "/fonts.json" then some DownloadResult.nullValue
  else
    match file.2 with
    | SettledFile.ok font => some (DownloadResult.font font)
    | SettledFile.failed => none

/-- A row as upserted by Fonts.download: a full asset row, or the degenerate
row produced by `{...null, family: handle.name}` when the collected value is
null, carrying only the batch family. -/
inductive UpsertRow where
  | asset (f : Font)
  | familyOnly (family : String)
deriving DecidableEq, Repr

/-- The family column of an upserted row. -/
def UpsertRow.familyOf : UpsertRow → String
  | UpsertRow.asset f => f.family
  | UpsertRow.familyOnly family => family

/-- The upsert batches issued by Fonts.download: an array value (the
Google-CSS case) is upserted as-is; any other collected value v is upserted as
`[{...v, family: handle.name}]` — a full row with overridden family for a font
value, and the degenerate family-only row for a null value. -/
def downloadUpserts (name : String) (files : List (String × SettledFile)) :
    List (List UpsertRow) :=
  (files.filterMap downloadContribution).map (fun r =>
    match r with
    | DownloadResult.font f => [UpsertRow.asset { f with family := name }]
    | DownloadResult.fonts fs => fs.map UpsertRow.asset
    | DownloadResult.nullValue => [UpsertRow.familyOnly name])

/-!
The rename retry loop in Fonts.downloadOne (the output 'finish' handler).
-/

/-- Result of the rename retry loop: whether a rename attempt succeeded, how
many attempts ran, and the backoff delays (in milliseconds) slept between
attempts. -/
structure RenameOutcome where
  success : Bool
  attempts : Nat
  delays : List Nat
deriving DecidableEq, Repr

/-- The `while (retry--)` rename loop of downloadOne, parameterized by which
attempt numbers (1-based) would succeed: on failure with retries left it
sleeps `100 * 2 ^ (3 - retry)` milliseconds (retry already decremented) and
tries again; on failure with no retries left it throws. -/
def renameGo (f : Nat → Bool) : Nat → Nat → RenameOutcome
  | 0, _ => { success := false, attempts := 0, delays := [] }
  | r + 1, idx =>
    if f idx then { success := true, attempts := 1, delays := [] }
    else if r = 0 then { success := false, attempts := 1, delays := [] }
    else
      let o := renameGo f r (idx + 1)
      { success := o.success, attempts := o.attempts + 1, delays := 100 * 2 ^ (3 - r) :: o.delays }

/-- The rename loop as entered by downloadOne: `let retry = 3`, first attempt
is attempt 1. -/
def renameRun (f : Nat → Bool) : RenameOutcome :=
  renameGo f 3 1

/-!
The cleanup routine in Fonts.downloadOne, shared by the cancel and failure
paths, as a state machine over the events that can trigger it.
-/

/-- Per-file download state: the `cancel`/`cancelled`/`failure`/`downloaded`
fields of the handle, the closure flag `cleanupExecuted`, a ghost counter of
how many times cleanup's destructive effects actually ran, and whether the
promise was rejected. -/
structure DownloadState where
  cancel : Bool
  cancelled : Bool
  failure : Bool
  downloaded : Nat
  cleanupExecuted : Bool
  cleanupRuns : Nat
  rejected : Bool
deriving DecidableEq, Repr

/-- The cleanup closure of downloadOne: a second call returns immediately on
the `cleanupExecuted` flag (checked and set synchronously before any await);
the first call runs the destructive effects (unpipe, listener removal, stream
teardown, temp-file removal, transport abort — counted by cleanupRuns), marks
the file cancelled and rejects the promise. -/
def cleanupDl (s : DownloadState) : DownloadState :=
  if s.cleanupExecuted then s
  else
    { s with cleanupExecuted := true, cleanupRuns := s.cleanupRuns + 1,
             cancelled := true, rejected := true }

/-- The events that drive a file download's cleanup behaviour: an external
cancellation request, a stream error, a data chunk (cleanup when cancel was
requested, then the byte counter grows), stream finish (cleanup when cancel
was requested), and exhaustion of the rename retries. -/
inductive DlEvent where
  | requestCancel
  | streamError
  | dataChunk (n : Nat)
  | streamFinish
  | renameExhausted
deriving DecidableEq, Repr

/-- One listener invocation of downloadOne, from the handlers registered on
the readable and output streams. -/
def dlStep (s : DownloadState) : DlEvent → DownloadState
  | DlEvent.requestCancel => { s with cancel := true }
  | DlEvent.streamError => cleanupDl { s with failure := true }
  | DlEvent.dataChunk n =>
    let s1 := if s.cancel then cleanupDl s else s
    { s1 with downloaded := s1.downloaded + n }
  | DlEvent.streamFinish => if s.cancel then cleanupDl s else s
  | DlEvent.renameExhausted => cleanupDl { s with failure := true }

/-- The initial per-file state created by the batch coordinator. -/
def initDlState : DownloadState :=
  { cancel := false, cancelled := false, failure := false, downloaded := 0,
    cleanupExecuted := false, cleanupRuns := 0, rejected := false }

/-- Run a sequence of download events. -/
def dlRun (events : List DlEvent) (s : DownloadState) : DownloadState :=
  events.foldl dlStep s

/-- Invariant carried through the download event machine: cleanup's
destructive effects have run at most once, and not at all while the
cleanupExecuted flag is still unset. -/
def dlInv (s : DownloadState) : Prop :=
  s.cleanupRuns ≤ 1 ∧ (s.cleanupExecuted = false → s.cleanupRuns = 0)

/-- A sample locally registered font asset. -/
def fontA : Font :=
  { id := "a", family := "A", format := FontFormat.ttf, fileName := "a.ttf", size := 1,
    path := "/fonts/a.ttf", descriptors := [], sourceTag := some "s1" }

/-- A later registration carrying the same id as fontA. -/
def fontA2 : Font :=
  { id := "a", family := "A", format := FontFormat.ttf, fileName := "a.ttf", size := 2,
    path := "/fonts/v2/a.ttf", descriptors := [], sourceTag := some "s2" }

/-- A sample remote font asset with a null-valued descriptor. -/
def fontB : Font :=
  { id := "b", family := "B", format := FontFormat.woff2, fileName := "b.woff2", size := 5,
    path := "https://cdn.example.com/b.woff2",
    descriptors := [("style", none), ("weight", some "700")], sourceTag := some "s2" }

/-- A sample registry state with two in-memory fonts and one stored row. -/
def regState : RegistryState :=
  { fonts := [fontA, fontB], db := [fontB] }

/-- The first asset produced by googleFontsParser on gfontsUrl. -/
def gfontRoboto : Font :=
  { id := "Roboto:wght@400", family := "Roboto", format := FontFormat.google,
    fileName := "Roboto:wght@400", size := 0,
    path := "https://fonts.googleapis.com/css2?family=Roboto:wght@400&display=swap",
    descriptors := [], sourceTag := some "fonts" }

/-!
Helper lemmas about mergeFonts.
-/

/-- Replacing a font by its id-match keeps the id. -/
theorem update_getD_id (ns : List Font) (e : Font) :
    ((ns.find? (fun font => font.id == e.id)).getD e).id = e.id := by
  cases h : ns.find? (fun font => font.id == e.id) with
  | none => rfl
  | some m =>
    have hm := List.find?_some h
    simp only [beq_iff_eq] at hm
    simp [hm]

/-- The update pass of mergeFonts preserves the id sequence of the existing
list. -/
theorem map_id_update (ns es : List Font) :
    ((es.map (fun exist => (ns.find? (fun font => font.id == exist.id)).getD exist)).map Font.id)
      = es.map Font.id := by
  induction es with
  | nil => rfl
  | cons a as ih => simp [update_getD_id, ih]

/-- The ids of a merge: the existing ids followed by the genuinely new ids. -/
theorem merge_ids (es ns : List Font) :
    (mergeFonts es ns).map Font.id
      = es.map Font.id
        ++ (ns.filter (fun font => !(es.any (fun f => f.id == font.id)))).map Font.id := by
  simp [mergeFonts, map_id_update]
  intro a _
  exact update_getD_id ns a

/-- On a list with pairwise distinct ids, searching for a member's id finds
that member. -/
theorem find_id_of_mem {ns : List Font} {n : Font} (hnd : (ns.map Font.id).Nodup)
    (hn : n ∈ ns) : ns.find? (fun f => f.id == n.id) = some n := by
  induction ns with
  | nil => cases hn
  | cons a as ih =>
    simp only [List.map_cons, List.nodup_cons] at hnd
    rcases List.mem_cons.mp hn with h | h
    · subst h
      exact List.find?_cons_of_pos _ (by simp)
    · have hne : ¬((a.id == n.id) = true) := by
        intro hcon
        simp only [beq_iff_eq] at hcon
        exact hnd.1 (hcon ▸ List.mem_map.mpr ⟨n, h, rfl⟩)
      rw [@List.find?_cons_of_neg Font (fun f => f.id == n.id) a as hne]
      exact ih hnd.2 h

/-- Every element of a merge comes from one of the two inputs. -/
theorem merge_mem_either {es ns : List Font} {f : Font} (hf : f ∈ mergeFonts es ns) :
    f ∈ es ∨ f ∈ ns := by
  rcases List.mem_append.mp hf with h | h
  · obtain ⟨e, he, hfe⟩ := List.mem_map.mp h
    cases hfind : ns.find? (fun font => font.id == e.id) with
    | none =>
      left
      rw [hfind] at hfe
      simpa using hfe ▸ he
    | some m =>
      right
      rw [hfind] at hfe
      simp only [Option.getD_some] at hfe
      exact hfe ▸ List.mem_of_find?_eq_some hfind
  · exact Or.inr (List.mem_filter.mp h).1

/-- When the new list has pairwise distinct ids, every new font appears in the
merge (replacing its id-match when one exists, appended otherwise). -/
theorem merge_mem_new {es ns : List Font} (hnd : (ns.map Font.id).Nodup) {n : Font}
    (hn : n ∈ ns) : n ∈ mergeFonts es ns := by
  by_cases h : es.any (fun f => f.id == n.id) = true
  · obtain ⟨e, he, hbeq⟩ := List.any_eq_true.mp h
    refine List.mem_append.mpr (Or.inl (List.mem_map.mpr ⟨e, he, ?_⟩))
    have heid : e.id = n.id := by simpa using hbeq
    rw [heid, find_id_of_mem hnd hn]
    rfl
  · refine List.mem_append.mpr (Or.inr ?_)
    exact List.mem_filter.mpr ⟨hn, by simpa using h⟩

/-- An existing font whose id matches no new font survives the merge. -/
theorem merge_mem_keep {es ns : List Font} {e : Font} (he : e ∈ es)
    (hnone : ∀ n ∈ ns, n.id ≠ e.id) : e ∈ mergeFonts es ns := by
  refine List.mem_append.mpr (Or.inl (List.mem_map.mpr ⟨e, he, ?_⟩))
  have : ns.find? (fun font => font.id == e.id) = none := by
    rw [List.find?_eq_none]
    intro n hn
    simpa using hnone n hn
  rw [this]
  rfl

/-- Merging two lists with pairwise distinct ids yields pairwise distinct
ids. -/
theorem merge_nodup {es ns : List Font} (he : (es.map Font.id).Nodup)
    (hn : (ns.map Font.id).Nodup) : ((mergeFonts es ns).map Font.id).Nodup := by
  rw [merge_ids]
  refine List.Nodup.append he ?_ ?_
  · exact hn.sublist ((List.filter_sublist ns).map Font.id)
  · intro x hx1 hx2
    obtain ⟨u, hu, hux⟩ := List.mem_map.mp hx2
    obtain ⟨f0, hf0, hfx⟩ := List.mem_map.mp hx1
    have hq := (List.mem_filter.mp hu).2
    have : es.any (fun f => f.id == u.id) = true :=
      List.any_eq_true.mpr ⟨f0, hf0, by simp [hfx, hux]⟩
    simp [this] at hq

/-- In a map by an id-preserving function over a list with pairwise distinct
ids, filtering by a member's id returns exactly the image of that member. -/
theorem filter_map_single (g : Font → Font) (hg : ∀ x, (g x).id = x.id) (tid : String) :
    ∀ es : List Font, (es.map Font.id).Nodup → ∀ e, e ∈ es → e.id = tid →
      (es.map g).filter (fun f => f.id == tid) = [g e] := by
  intro es
  induction es with
  | nil =>
    intro _ e he
    cases he
  | cons a as ih =>
    intro hnd e he hetid
    rw [List.map_cons, List.nodup_cons] at hnd
    rcases List.mem_cons.mp he with rfl | hein
    · have hpass : ((g e).id == tid) = true := by simp [hg, hetid]
      rw [List.map_cons, List.filter_cons, if_pos hpass]
      have htail : (as.map g).filter (fun f => f.id == tid) = [] := by
        rw [List.filter_eq_nil_iff]
        intro x hx
        obtain ⟨e', he', rfl⟩ := List.mem_map.mp hx
        simp only [hg, beq_iff_eq]
        intro hc
        exact hnd.1 (by
          rw [hetid, ← hc]
          exact List.mem_map.mpr ⟨e', he', rfl⟩)
      rw [htail]
    · have hane : ¬(a.id = tid) := by
        intro hc
        refine hnd.1 ?_
        rw [hc, ← hetid]
        exact List.mem_map.mpr ⟨e, hein, rfl⟩
      have hfail : ¬(((g a).id == tid) = true) := by simp [hg, hane]
      rw [List.map_cons, List.filter_cons, if_neg hfail]
      exact ih hnd.2 e hein hetid

/-- No appended-new font of a merge carries the id of an existing font. -/
theorem filter_unique_nil (es ns : List Font) (e : Font) (he : e ∈ es) (tid : String)
    (hid : e.id = tid) :
    (ns.filter (fun font => !(es.any (fun f => f.id == font.id)))).filter
      (fun f => f.id == tid) = [] := by
  rw [List.filter_eq_nil_iff]
  intro u hu
  have hq := (List.mem_filter.mp hu).2
  simp only [beq_iff_eq]
  intro hc
  have : es.any (fun f => f.id == u.id) = true :=
    List.any_eq_true.mpr ⟨e, he, by simp [hid, hc]⟩
  simp [this] at hq

/-- After a merge of id-distinct lists, the only entry carrying a replaced id
is the replacing new font. -/
theorem merge_filter_single {es ns : List Font} (he : (es.map Font.id).Nodup)
    (hn : (ns.map Font.id).Nodup) {e n : Font} (hees : e ∈ es) (hns : n ∈ ns)
    (hid : n.id = e.id) :
    (mergeFonts es ns).filter (fun f => f.id == n.id) = [n] := by
  have hge : (ns.find? (fun font => font.id == e.id)).getD e = n := by
    rw [← hid, find_id_of_mem hn hns]
    rfl
  have h1 := filter_map_single
    (fun exist => (ns.find? (fun font => font.id == exist.id)).getD exist)
    (update_getD_id ns) n.id es he e hees hid.symm
  have h2 := filter_unique_nil es ns e hees n.id hid.symm
  simp only [mergeFonts]
  rw [List.filter_append, h1, h2]
  simp [hge]

/-- C2 counterexample: as universally quantified over all input lists, the
claim fails — when the new list itself contains two entries with the same id,
mergeFonts keeps both, so the id occurs twice in the result. -/
theorem mergeFonts_duplicate_counterexample :
    ((mergeFonts [] [fontA, fontA]).map Font.id).count "a" = 2 ∧ (2 : Nat) ≠ 1 := by
  exact ⟨by decide, by decide⟩

/-- C2 (amended: for input lists whose ids are pairwise distinct): mergeFonts
returns a list with pairwise distinct ids in which every new entry appears
(replacing the existing entry with its id, in place), existing entries with no
new id-match survive, everything comes from one of the inputs, and for a
replaced id the result holds exactly one entry — the new one. -/
theorem mergeFonts_update_in_place (es ns : List Font)
    (he : (es.map Font.id).Nodup) (hn : (ns.map Font.id).Nodup) :
    ((mergeFonts es ns).map Font.id).Nodup
    ∧ (∀ n ∈ ns, n ∈ mergeFonts es ns)
    ∧ (∀ e ∈ es, (∀ n ∈ ns, n.id ≠ e.id) → e ∈ mergeFonts es ns)
    ∧ (∀ f ∈ mergeFonts es ns, f ∈ es ∨ f ∈ ns)
    ∧ (∀ e ∈ es, ∀ n ∈ ns, n.id = e.id →
        (mergeFonts es ns).filter (fun f => f.id == n.id) = [n]) :=
  ⟨merge_nodup he hn,
   fun _ hns => merge_mem_new hn hns,
   fun _ he2 hno => merge_mem_keep he2 hno,
   fun _ hf => merge_mem_either hf,
   fun _ he2 _ hns hid => merge_filter_single he hn he2 hns hid⟩

/-- C2 witness: registering fontA2 (same id as the already registered fontA)
leaves exactly one entry with that id, the later one. -/
theorem mergeFonts_update_in_place_witness :
    (mergeFonts [fontA] [fontA2, fontB]).filter (fun f => f.id == fontA2.id) = [fontA2] :=
  (mergeFonts_update_in_place [fontA] [fontA2, fontB] (by decide) (by decide)).2.2.2.2
    fontA (by decide) fontA2 (by decide) (by decide)

/-- transformFont keeps the id. -/
theorem transformFont_id (f : Font) : (transformFont f).id = f.id := rfl

/-- C4: every font returned by get has a requested family, carries no
null-valued descriptor, and its path is the stored path for google or
URL-shaped paths and the file URI of the stored path otherwise. -/
theorem getFonts_spec (mem db : List Font) (families : List String) (f : Font)
    (hf : f ∈ getFonts mem db families) :
    families.contains f.family = true
    ∧ (∀ kv ∈ f.descriptors, kv.2.isSome = true)
    ∧ ∃ g : Font, (g ∈ mem ∨ g ∈ db) ∧ f.id = g.id ∧ f.family = g.family ∧ f.size = g.size
        ∧ f.descriptors = g.descriptors.filter (fun kv => kv.2.isSome)
        ∧ f.path = (if g.format == FontFormat.google || isUrl g.path then g.path
                    else pathToFileURLString g.path) := by
  obtain ⟨h0, hh0, rfl⟩ := List.mem_map.mp hf
  refine ⟨?_, ?_, h0, ?_, rfl, rfl, rfl, rfl, rfl⟩
  · rcases merge_mem_either hh0 with h | h
    · exact (List.mem_filter.mp h).2
    · exact (List.mem_filter.mp h).2
  · intro kv hkv
    exact (List.mem_filter.mp hkv).2
  · rcases merge_mem_either hh0 with h | h
    · exact Or.inl (List.mem_filter.mp h).1
    · exact Or.inr (List.mem_filter.mp h).1

/-- C4 witness: a registered local font is returned for its family with a
file-URI path. -/
theorem getFonts_spec_witness :
    List.contains ["A"] (transformFont fontA).family = true :=
  (getFonts_spec [fontA] [] ["A"] (transformFont fontA) (by decide)).1

/-- C10: when an in-memory font and a backing-store row share an id, the entry
returned by get for that id is (the transform of) the backing-store row. -/
theorem getFonts_db_overrides (mem db : List Font) (families : List String) (m d : Font)
    (hmem : (mem.map Font.id).Nodup) (hdb : (db.map Font.id).Nodup)
    (hm : m ∈ mem) (hd : d ∈ db)
    (hmf : families.contains m.family = true) (hdf : families.contains d.family = true)
    (hid : m.id = d.id) :
    transformFont d ∈ getFonts mem db families
    ∧ ∀ f ∈ getFonts mem db families, f.id = m.id → f = transformFont d := by
  have hmemF : ((mem.filter (fun font => families.contains font.family)).map Font.id).Nodup :=
    hmem.sublist ((List.filter_sublist mem).map Font.id)
  have hdbF : ((db.filter (fun row => families.contains row.family)).map Font.id).Nodup :=
    hdb.sublist ((List.filter_sublist db).map Font.id)
  have hmF : m ∈ mem.filter (fun font => families.contains font.family) :=
    List.mem_filter.mpr ⟨hm, hmf⟩
  have hdF : d ∈ db.filter (fun row => families.contains row.family) :=
    List.mem_filter.mpr ⟨hd, hdf⟩
  have hdm : d ∈ mergeFonts (mem.filter (fun font => families.contains font.family))
      (db.filter (fun row => families.contains row.family)) :=
    merge_mem_new hdbF hdF
  have hfilter := merge_filter_single hmemF hdbF hmF hdF hid.symm
  constructor
  · exact List.mem_map.mpr ⟨d, hdm, rfl⟩
  · intro f hf hfid
    obtain ⟨h0, hh0, rfl⟩ := List.mem_map.mp hf
    have hmem0 : h0 ∈ (mergeFonts (mem.filter (fun font => families.contains font.family))
        (db.filter (fun row => families.contains row.family))).filter
          (fun f => f.id == d.id) := by
      refine List.mem_filter.mpr ⟨hh0, ?_⟩
      have : h0.id = m.id := hfid
      simp [this, hid]
    rw [hfilter] at hmem0
    have : h0 = d := by simpa using hmem0
    rw [this]

/-- C10 witness: with id "a" both in memory and in the store, get returns the
stored row's transform. -/
theorem getFonts_db_overrides_witness :
    transformFont fontA2 ∈ getFonts [fontA] [fontA2] ["A"] :=
  (getFonts_db_overrides [fontA] [fontA2] ["A"] fontA fontA2 (by decide) (by decide)
    (by decide) (by decide) (by decide) (by decide) (by decide)).1

/-- Filtering by the negation of a predicate that selects nothing keeps the
whole list. -/
theorem filter_not_of_filter_nil {α : Type} (p : α → Bool) :
    ∀ l : List α, l.filter p = [] → l.filter (fun x => !(p x)) = l := by
  intro l
  induction l with
  | nil => intro _; rfl
  | cons a as ih =>
    intro h
    rw [List.filter_cons] at h
    cases hpa : p a with
    | true => rw [hpa] at h; simp at h
    | false =>
      rw [hpa] at h
      simp only [Bool.false_eq_true, if_false] at h
      simp [List.filter_cons, hpa, ih h]

/-- C5: for a non-blank source name, clear removes exactly the in-memory fonts
tagged with the trimmed name and never touches the backing store. -/
theorem clearFonts_spec (st : RegistryState) (s : String) (h : isNonEmptyString s = true) :
    (clearFonts st s).fonts
      = st.fonts.filter (fun font => !(font.sourceTag == some (trimStr s)))
    ∧ (clearFonts st s).db = st.db := by
  unfold clearFonts
  rw [h]
  simp only [Bool.not_true, Bool.false_eq_true, if_false]
  by_cases hr : (st.fonts.filter (fun font => font.sourceTag == some (trimStr s))).isEmpty = true
  · have hnil : st.fonts.filter (fun font => font.sourceTag == some (trimStr s)) = [] :=
      List.isEmpty_iff.mp hr
    rw [if_pos hr]
    exact ⟨(filter_not_of_filter_nil _ st.fonts hnil).symm, rfl⟩
  · rw [if_neg hr]
    exact ⟨rfl, rfl⟩

/-- C5 witness: clearing source "s1" (with surrounding blanks in the request)
removes exactly fontA and keeps the backing store. -/
theorem clearFonts_spec_witness :
    (clearFonts regState " s1 ").fonts
      = regState.fonts.filter (fun font => !(font.sourceTag == some (trimStr " s1 ")))
    ∧ (clearFonts regState " s1 ").db = regState.db :=
  clearFonts_spec regState " s1 " (by decide)

/-- C1: the writer-exclusion invariant fails on the code. After
releaseWriteLock wakes a queued writer, the woken writer only sets
activeWriter in its resumed continuation; an acquireReadLock (or
acquireWriteLock) running in between sees the lock free and is granted, so a
state with an active writer and an active reader — and likewise a state with
two concurrent write-lock holders — is reachable. -/
theorem lock_exclusion_violation_reachable :
    ∃ s : LockState, LockReachable true s ∧ s.activeWriter = true ∧ s.activeReaders = 1
    ∧ ∃ t : LockState, LockReachable true t ∧ t.writeHolders = 2 := by
  have h1 : LockStep true initLock
      { waitingReaders := 0, wokenReaders := 0, waitingWriters := 0, wokenWriters := 0,
        activeReaders := 0, activeWriter := true, writeHolders := 1 } :=
    LockStep.writeFast initLock ⟨rfl, rfl⟩
  have h2 : LockStep true
      { waitingReaders := 0, wokenReaders := 0, waitingWriters := 0, wokenWriters := 0,
        activeReaders := 0, activeWriter := true, writeHolders := 1 }
      { waitingReaders := 0, wokenReaders := 0, waitingWriters := 1, wokenWriters := 0,
        activeReaders := 0, activeWriter := true, writeHolders := 1 } :=
    LockStep.writeWait _ (Or.inr rfl)
  have h3 : LockStep true
      { waitingReaders := 0, wokenReaders := 0, waitingWriters := 1, wokenWriters := 0,
        activeReaders := 0, activeWriter := true, writeHolders := 1 }
      { waitingReaders := 0, wokenReaders := 0, waitingWriters := 0, wokenWriters := 1,
        activeReaders := 0, activeWriter := false, writeHolders := 0 } :=
    LockStep.releaseWrite _ (by decide)
  have h4 : LockStep true
      { waitingReaders := 0, wokenReaders := 0, waitingWriters := 0, wokenWriters := 1,
        activeReaders := 0, activeWriter := false, writeHolders := 0 }
      { waitingReaders := 0, wokenReaders := 0, waitingWriters := 0, wokenWriters := 1,
        activeReaders := 1, activeWriter := false, writeHolders := 0 } :=
    LockStep.readFast _ (by decide)
  have h5 : LockStep true
      { waitingReaders := 0, wokenReaders := 0, waitingWriters := 0, wokenWriters := 1,
        activeReaders := 1, activeWriter := false, writeHolders := 0 }
      { waitingReaders := 0, wokenReaders := 0, waitingWriters := 0, wokenWriters := 0,
        activeReaders := 1, activeWriter := true, writeHolders := 1 } :=
    LockStep.writeResume _ (by decide)
  have h6 : LockStep true
      { waitingReaders := 0, wokenReaders := 0, waitingWriters := 0, wokenWriters := 1,
        activeReaders := 0, activeWriter := false, writeHolders := 0 }
      { waitingReaders := 0, wokenReaders := 0, waitingWriters := 0, wokenWriters := 1,
        activeReaders := 0, activeWriter := true, writeHolders := 1 } :=
    LockStep.writeFast _ ⟨rfl, rfl⟩
  have h7 : LockStep true
      { waitingReaders := 0, wokenReaders := 0, waitingWriters := 0, wokenWriters := 1,
        activeReaders := 0, activeWriter := true, writeHolders := 1 }
      { waitingReaders := 0, wokenReaders := 0, waitingWriters := 0, wokenWriters := 0,
        activeReaders := 0, activeWriter := true, writeHolders := 2 } :=
    LockStep.writeResume _ (by decide)
  refine ⟨_, Relation.ReflTransGen.head h1 (Relation.ReflTransGen.head h2
      (Relation.ReflTransGen.head h3 (Relation.ReflTransGen.head h4
        (Relation.ReflTransGen.single h5)))), rfl, rfl,
    _, Relation.ReflTransGen.head h1 (Relation.ReflTransGen.head h2
      (Relation.ReflTransGen.head h3 (Relation.ReflTransGen.head h6
        (Relation.ReflTransGen.single h7)))), rfl⟩

/-- C3 counterexample: the second family parameter "Open+Sans" is form-url
decoded by URLSearchParams before it becomes the asset id, so the id is
"Open Sans" with a space, not "Open+Sans" as claimed. -/
theorem googleFontsParser_id_counterexample :
    (googleFontsParser gfontsUrl "fonts").map Font.id = ["Roboto:wght@400", "Open Sans"]
    ∧ ¬((googleFontsParser gfontsUrl "fonts").map Font.id
        = ["Roboto:wght@400", "Open+Sans"]) :=
  ⟨by decide, by decide⟩

/-- Mapping an id-preserving asset constructor over family names and reading
the ids back gives the family names. -/
theorem map_font_id_of (g : String → Font) (hg : ∀ x, (g x).id = x) :
    ∀ l : List String, (l.map g).map Font.id = l := by
  intro l
  induction l with
  | nil => rfl
  | cons a as ih => simp [hg, ih]

/-- C3 (amended: the id is the decoded family parameter value, "Open Sans"):
on the example URL the parser yields exactly two google-format zero-size
assets with families "Roboto" / "Open Sans", ids "Roboto:wght@400" /
"Open Sans" and reconstructed per-family URLs preserving the display
parameter; in general each family query parameter yields one asset whose id
is the decoded parameter value, with format google, size 0, and display name
decoded from the part before the variant suffix. -/
theorem googleFontsParser_spec :
    ((googleFontsParser gfontsUrl "fonts").map Font.id = ["Roboto:wght@400", "Open Sans"])
    ∧ ((googleFontsParser gfontsUrl "fonts").map Font.family = ["Roboto", "Open Sans"])
    ∧ ((googleFontsParser gfontsUrl "fonts").map Font.format
        = [FontFormat.google, FontFormat.google])
    ∧ ((googleFontsParser gfontsUrl "fonts").map Font.size = [0, 0])
    ∧ ((googleFontsParser gfontsUrl "fonts").map Font.path =
        ["https://fonts.googleapis.com/css2?family=Roboto:wght@400&display=swap",
         "https://fonts.googleapis.com/css2?family=Open+Sans&display=swap"])
    ∧ (∀ u src : String, (googleFontsParser u src).map Font.id
        = getAllParams (queryParamsOf u) "family")
    ∧ (∀ u src : String, ∀ f ∈ googleFontsParser u src,
        f.format = FontFormat.google ∧ f.size = 0
        ∧ f.family = percentDecode (String.mk (f.id.data.takeWhile (fun c => c != ':')))) := by
  refine ⟨by decide, by decide, by decide, by decide, by decide, ?_, ?_⟩
  · intro u src
    exact map_font_id_of _ (fun x => rfl) (getAllParams (queryParamsOf u) "family")
  · intro u src f hf
    simp only [googleFontsParser, List.mem_map] at hf
    obtain ⟨family, hfam, rfl⟩ := hf
    exact ⟨rfl, rfl, rfl⟩

/-- C3 witness: the first asset of the example URL has format google, size 0
and family decoded from its id. -/
theorem googleFontsParser_spec_witness :
    gfontRoboto.format = FontFormat.google ∧ gfontRoboto.size = 0
    ∧ gfontRoboto.family
      = percentDecode (String.mk (gfontRoboto.id.data.takeWhile (fun c => c != ':'))) :=
  googleFontsParser_spec.2.2.2.2.2.2 gfontsUrl "fonts" gfontRoboto (by decide)

/-- C6: a slice entry whose path is neither absolute nor URL-shaped is
resolved with path.resolve against dirname(P) for a local manifest at P, and
with URL resolution against the URL directory for a remote manifest; in
particular "./a.woff2" in a local manifest at /manifests/fonts.json resolves
to /manifests/a.woff2. -/
theorem manifest_relative_path_resolution :
    (∀ cwd : String,
      resolveSliceEntryPath cwd (manifestBase "/manifests/fonts.json").1
        (manifestBase "/manifests/fonts.json").2 "./a.woff2" = "/manifests/a.woff2")
    ∧ (∀ cwd P rel : String, isUrl P = false → isAbsolutePath rel = false → isUrl rel = false →
        resolveSliceEntryPath cwd (manifestBase P).1 (manifestBase P).2 rel
          = pathResolve cwd (dirnamePosix P) rel)
    ∧ (∀ cwd U rel : String, isUrl U = true → isAbsolutePath rel = false → isUrl rel = false →
        resolveSliceEntryPath cwd (manifestBase U).1 (manifestBase U).2 rel
          = urlResolve rel (lastSlashPrefix U)) := by
  refine ⟨fun cwd => rfl, ?_, ?_⟩
  · intro cwd P rel hP habs hurl
    simp [resolveSliceEntryPath, manifestBase, hP, habs, hurl]
  · intro cwd U rel hU habs hurl
    simp [resolveSliceEntryPath, manifestBase, hU, habs, hurl]

/-- C6 witness: the concrete local resolution and a concrete remote
resolution. -/
theorem manifest_relative_path_resolution_witness :
    resolveSliceEntryPath "/" (manifestBase "/manifests/fonts.json").1
      (manifestBase "/manifests/fonts.json").2 "./a.woff2" = "/manifests/a.woff2"
    ∧ resolveSliceEntryPath "/cwd"
        (manifestBase "https://cdn.example.com/fonts/fonts.json").1
        (manifestBase "https://cdn.example.com/fonts/fonts.json").2 "a.woff2"
      = urlResolve "a.woff2" (lastSlashPrefix "https://cdn.example.com/fonts/fonts.json") :=
  ⟨manifest_relative_path_resolution.1 "/",
   manifest_relative_path_resolution.2.2 "/cwd" "https://cdn.example.com/fonts/fonts.json"
     "a.woff2" (by decide) (by decide) (by decide)⟩

/-- C7 counterexample: an asset produced from a Google-CSS URL in the batch is
upserted with its parsed family ("Roboto"), not with the batch's name
("MyBatch"), refuting the claim that every produced asset is stored with the
batch's name as family. -/
theorem download_family_counterexample :
    ((downloadUpserts "MyBatch"
        [("https://fonts.googleapis.com/css2?family=Roboto", SettledFile.failed)]).flatten.map
          UpsertRow.familyOf = ["Roboto"])
    ∧ ("Roboto" : String) ≠ "MyBatch" :=
  ⟨by decide, by decide⟩

/-- C7 (amended): the batch is settled file by file — the upserts decompose
pointwise, a rejected direct download contributes nothing (others are
unaffected), a fulfilled direct download is upserted with the batch's name as
family, Google-CSS URLs are upserted with their parsed families, and a
manifest URL's fulfilled null survives the truthiness filter (which runs on
the settled-result objects) and is upserted as the degenerate row spread from
null with only the batch family. -/
theorem download_settle_spec (name : String) :
    (∀ files1 files2 : List (String × SettledFile),
      downloadUpserts name (files1 ++ files2)
        = downloadUpserts name files1 ++ downloadUpserts name files2)
    ∧ (∀ u : String, strStartsWith u "https://fonts.googleapis.com/css" = false →
        strEndsWith u "/fonts.json" = false →
        downloadUpserts name [(u, SettledFile.failed)] = [])
    ∧ (∀ u font, strStartsWith u "https://fonts.googleapis.com/css" = false →
        strEndsWith u "/fonts.json" = false →
        downloadUpserts name [(u, SettledFile.ok font)]
          = [[UpsertRow.asset { font with family := name }]])
    ∧ (∀ (u : String) (r : SettledFile),
        strStartsWith u "https://fonts.googleapis.com/css" = true →
        downloadUpserts name [(u, r)] = [(googleFontsParser u "fonts").map UpsertRow.asset])
    ∧ (∀ (u : String) (r : SettledFile),
        strStartsWith u "https://fonts.googleapis.com/css" = false →
        strEndsWith u "/fonts.json" = true →
        downloadUpserts name [(u, r)] = [[UpsertRow.familyOnly name]]) := by
  refine ⟨fun f1 f2 => ?_, fun u h1 h2 => ?_, fun u font h1 h2 => ?_, fun u r h1 => ?_,
    fun u r h1 h2 => ?_⟩
  · simp [downloadUpserts, List.filterMap_append]
  · simp [downloadUpserts, downloadContribution, h1, h2]
  · simp [downloadUpserts, downloadContribution, h1, h2]
  · simp [downloadUpserts, downloadContribution, h1]
  · simp [downloadUpserts, downloadContribution, h1, h2]

/-- C7 witness: a failed direct file contributes no upsert. -/
theorem download_settle_spec_witness :
    downloadUpserts "fam" [("https://example.com/a.woff2", SettledFile.failed)] = [] :=
  (download_settle_spec "fam").2.1 "https://example.com/a.woff2" (by decide) (by decide)

/-- C8 counterexample: when every rename attempt fails, the loop sleeps 200ms
then 400ms — `100 * 2 ^ (3 - retry)` with retry already decremented — not the
claimed 100ms then 200ms. -/
theorem rename_backoff_counterexample :
    renameRun (fun _ => false)
      = { success := false, attempts := 3, delays := [200, 400] }
    ∧ ([200, 400] : List Nat) ≠ [100, 200] :=
  ⟨rfl, by decide⟩

/-- C8 (amended: the doubling backoff starts at 200ms): renaming is attempted
up to 3 times; after the first failed attempt the loop waits 200ms and after
the second 400ms, and only when all three attempts fail is the download
treated as failed. -/
theorem rename_retry_spec (f : Nat → Bool) :
    renameRun f = (if f 1 then { success := true, attempts := 1, delays := [] }
      else if f 2 then { success := true, attempts := 2, delays := [200] }
      else if f 3 then { success := true, attempts := 3, delays := [200, 400] }
      else { success := false, attempts := 3, delays := [200, 400] })
    ∧ ((renameRun f).success = false → f 1 = false ∧ f 2 = false ∧ f 3 = false)
    ∧ (renameRun f).attempts ≤ 3 := by
  cases h1 : f 1 <;> cases h2 : f 2 <;> cases h3 : f 3 <;>
    simp [renameRun, renameGo, h1, h2, h3]

/-- C8 witness: with every attempt failing, all three attempts ran and failure
is reported only then. -/
theorem rename_retry_spec_witness :
    (fun _ : Nat => false) 1 = false ∧ (fun _ : Nat => false) 2 = false
    ∧ (fun _ : Nat => false) 3 = false :=
  (rename_retry_spec (fun _ => false)).2.1 (by rfl)

/-- The cleanup guard preserves the at-most-once invariant. -/
theorem cleanupDl_preserves (s : DownloadState) (h : dlInv s) : dlInv (cleanupDl s) := by
  unfold cleanupDl
  by_cases hc : s.cleanupExecuted = true
  · rw [if_pos hc]
    exact h
  · have hc2 : s.cleanupExecuted = false := by simpa using hc
    rw [if_neg hc]
    refine ⟨?_, ?_⟩
    · have h0 := h.2 hc2
      simp [dlInv] at h0 ⊢
      omega
    · intro hfalse
      simp at hfalse

/-- Every download event preserves the at-most-once invariant. -/
theorem dlStep_preserves (s : DownloadState) (e : DlEvent) (h : dlInv s) :
    dlInv (dlStep s e) := by
  cases e with
  | requestCancel => exact h
  | streamError => exact cleanupDl_preserves { s with failure := true } h
  | dataChunk n =>
    by_cases hc : s.cancel = true
    · simp only [dlStep, hc, if_true]
      exact cleanupDl_preserves s h
    · have hc2 : s.cancel = false := by simpa using hc
      simp only [dlStep, hc2]
      simpa using h
  | streamFinish =>
    by_cases hc : s.cancel = true
    · simp only [dlStep, hc, if_true]
      exact cleanupDl_preserves s h
    · have hc2 : s.cancel = false := by simpa using hc
      simpa [dlStep, hc2] using h
  | renameExhausted => exact cleanupDl_preserves { s with failure := true } h

/-- Event sequences preserve the at-most-once invariant. -/
theorem dlRun_preserves :
    ∀ (events : List DlEvent) (s : DownloadState), dlInv s → dlInv (dlRun events s) := by
  intro events
  induction events with
  | nil =>
    intro s h
    simpa [dlRun] using h
  | cons e es ih =>
    intro s h
    simpa [dlRun] using ih (dlStep s e) (dlStep_preserves s e h)

/-- C9: whatever sequence of triggering events fires (stream error, chunk
with cancel requested, finish with cancel requested, rename exhaustion, in any
interleaving with cancel requests), cleanup's destructive effects run at most
once; a call after the flag is set is a no-op. -/
theorem downloadOne_cleanup_idempotent :
    (∀ events : List DlEvent, (dlRun events initDlState).cleanupRuns ≤ 1)
    ∧ (∀ s : DownloadState, s.cleanupExecuted = true → cleanupDl s = s) := by
  constructor
  · intro events
    exact (dlRun_preserves events initDlState ⟨by decide, fun _ => rfl⟩).1
  · intro s h
    simp [cleanupDl, h]

/-- C9 witness: a second cleanup call after the first is a no-op. -/
theorem downloadOne_cleanup_idempotent_witness :
    cleanupDl (cleanupDl initDlState) = cleanupDl initDlState :=
  downloadOne_cleanup_idempotent.2 (cleanupDl initDlState) (by decide)

end FontsPlugin
